import Mathlib

/-!
# Verification of package `errbuf` (file `errbuf.go`)

A shallow embedding of the Go package `errbuf`: a buffer (`BufferedError`)
that accumulates `error` values and renders them as a single string.

Modelling conventions:

* A Go `error` interface value is `GoError`: the nil interface value
  (`GoError.nilErr`), an ordinary leaf error whose `Error()` method
  returns a fixed string (`GoError.leaf msg`), or a `*BufferedError`
  (`GoError.buffered errs`, carrying the `errors` slice of that buffer).
* The sequential state of a `*BufferedError` is `BufState`: the contents
  of its `errors` slice together with the capacity of the slice.  The
  `sync.RWMutex` is dropped: every claim treated here is about the
  sequential semantics.
* A computation that can panic (calling `.Error()` on a nil interface
  value panics with a nil-pointer dereference) returns `Option`; `none`
  is a panic, `some` a normal result.
* For the defensive-copy behaviour of `Unwrap` (line 109 of `errbuf.go`:
  `append(([]error)(nil), b.errors...)`), aliasing is made visible by a
  small store model `Mem`: each slice backing array lives at an address,
  and `Unwrap` allocates a fresh address.
-/

set_option autoImplicit false

namespace Errbuf

/-- A Go `error` interface value, as the `errbuf` package can observe it:
the nil interface value, a leaf error with its `Error()` string, or a
`*BufferedError` holding its `errors` slice (nesting is observed by
`writeMultiLine`, which type-asserts `err.(*BufferedError)`). -/
inductive GoError where
  | nilErr : GoError
  | leaf (msg : String) : GoError
  | buffered (errs : List GoError) : GoError

/-- `true` exactly on the nil interface value (the `err == nil` test). -/
def GoError.isNil : GoError → Bool
  | .nilErr => true
  | _ => false

mutual

/-- `err.Error()` for a single Go error value.
* nil interface value: calling `Error()` panics (`none`);
* leaf: its own message;
* `*BufferedError`: the method `(b *BufferedError) Error()` from
  `errbuf.go` lines 29-55 — `switch len(b.errors)`: `0` gives `""`,
  `1` gives `b.errors[0].Error()`, and two or more give the `"; "`-joined
  concatenation written by `writeSingleLine` (the last branch below is
  `writeSingleLine` unfolded one step, for structural termination; the
  pooled `strings.Builder` and the `size` pre-computation affect only
  allocation, not the produced string). -/
def errString : GoError → Option String
  | .nilErr => none
  | .leaf msg => some msg
  | .buffered [] => some ""
  | .buffered [e] => errString e
  | .buffered (e :: e2 :: rest) => do
      let s ← errString e
      let t ← writeSingleLine (e2 :: rest)
      some (s ++ "; " ++ t)

/-- `(b *BufferedError) writeSingleLine(w)` (`errbuf.go` lines 57-65):
writes the `Error()` string of each entry, preceded by the separator
`"; "` for every index `i > 0`. -/
def writeSingleLine : List GoError → Option String
  | [] => some ""
  | [e] => errString e
  | e :: e2 :: rest => do
      let s ← errString e
      let t ← writeSingleLine (e2 :: rest)
      some (s ++ "; " ++ t)

end

/-- The `switch len(b.errors)` of the `Error()` method (`errbuf.go`
lines 33-54), as a function of the `errors` slice. -/
def ErrorMethod (errs : List GoError) : Option String :=
  match errs with
  | [] => some ""
  | [e] => errString e
  | _ => writeSingleLine errs

/-- The indentation prefix built at `errbuf.go` lines 68-71:
`make([]byte, ident)` filled with blanks. -/
def spaces (n : Nat) : String :=
  String.mk (List.replicate n ' ')

mutual

/-- `(b *BufferedError) writeMultiLine(w, ident)` (`errbuf.go` lines
67-85): each entry preceded by the separator `"\n"` for `i > 0`, the
entry itself rendered by the loop body (`mlEntry`). -/
def writeMultiLine (ident : Nat) : List GoError → Option String
  | [] => some ""
  | [e] => mlEntry ident e
  | e :: e2 :: rest => do
      let s ← mlEntry ident e
      let t ← writeMultiLine ident (e2 :: rest)
      some (s ++ "\n" ++ t)

/-- The loop body of `writeMultiLine` for one entry (`errbuf.go` lines
78-83): a `*BufferedError` entry recurses with `ident+1` (and gets no
indentation of its own); any other entry is written as `spaces`
followed by `err.Error()`, which panics when the entry is the nil
interface value (the type assertion fails on nil, then `err.Error()`
dereferences nil). -/
def mlEntry (ident : Nat) : GoError → Option String
  | .nilErr => none
  | .leaf msg => some (spaces ident ++ msg)
  | .buffered errs => writeMultiLine (ident + 1) errs

end

mutual

/-- Model of the `%+v` rendering done by the Go `fmt` package for one
element of the `errors` slice (`fmt` is the standard library, outside
this repository): the nil interface value prints as `<nil>` without any
method call, a plain error prints via its `Error()` method, and a
`*BufferedError` goes through its `Format` method with the `+` flag,
printing `BufferedError{errors:%+v}` of its slice.  No branch can
panic, so the result is a plain `String`. -/
def fmtPlusV : GoError → String
  | .nilErr => "<nil>"
  | .leaf msg => msg
  | .buffered errs => "BufferedError\x7berrors:[" ++ fmtPlusVElems errs ++ "]\x7d"

/-- Model of the `%+v` rendering by `fmt` of the elements of an
`[]error` slice: blank-separated. -/
def fmtPlusVElems : List GoError → String
  | [] => ""
  | [e] => fmtPlusV e
  | e :: e2 :: rest => fmtPlusV e ++ " " ++ fmtPlusVElems (e2 :: rest)

end

/-- `(b *BufferedError) Format(f, verb)` (`errbuf.go` lines 87-102), as
the string written to `f`: verb `v` with the `+` flag prints the debug
dump `BufferedError{errors:%+v}`; verb `v` without the flag calls
`writeMultiLine(f, 0)`; every other verb calls `writeSingleLine(f)`. -/
def FormatVerb (errs : List GoError) (verb : Char) (plusFlag : Bool) : Option String :=
  if verb = 'v' then
    if plusFlag then
      some ("BufferedError\x7berrors:[" ++ fmtPlusVElems errs ++ "]\x7d")
    else
      writeMultiLine 0 errs
  else
    writeSingleLine errs

/-- Sequential state of a `*BufferedError` (`errbuf.go` lines 22-26):
the contents of the `errors` slice and its capacity.  The embedded
`sync.RWMutex` is dropped. -/
structure BufState where
  errors : List GoError
  cap : Nat

/-- The public `Error()` method on the buffer state. -/
def ErrorM (b : BufState) : Option String :=
  ErrorMethod b.errors

/-- Capacity of the slice produced by one `append` of one element in
Go.  The exact growth policy is a runtime detail not fixed by the
source; it only guarantees capacity at least `len + 1`.  Modelled as
doubling, with `len + 1` as a lower bound. -/
def appendCap (len cap : Nat) : Nat :=
  if len < cap then cap else max (2 * cap) (len + 1)

/-- `(b *BufferedError) Add(err)` (`errbuf.go` lines 134-142): early
return when `err == nil`, otherwise `b.errors = append(b.errors, err)`. -/
def Add (b : BufState) (err : GoError) : BufState :=
  if err.isNil then b
  else { errors := b.errors ++ [err], cap := appendCap b.errors.length b.cap }

/-- `(b *BufferedError) Clear()` (`errbuf.go` lines 126-130):
`b.errors = ([]error)(nil)` — a nil slice has length 0 and capacity 0. -/
def Clear (_b : BufState) : BufState :=
  { errors := [], cap := 0 }

/-- `(b *BufferedError) Grow(n)` (`errbuf.go` lines 114-122): when
`cap(b.errors) < n`, replace the slice by `make([]error, len(old), n)`
(capacity exactly `n`) and copy the old contents; otherwise do
nothing.  `n` is a Go `int`, so it ranges over `Int`; for `n ≤ 0` the
guard is always false. -/
def Grow (b : BufState) (n : Int) : BufState :=
  if (b.cap : Int) < n then { errors := b.errors, cap := n.toNat } else b

/-- `(b *BufferedError) Err()` (`errbuf.go` lines 146-155): `nil` when
`len(b.errors) == 0`, otherwise the receiver `b` itself. -/
def Err (b : BufState) : Option BufState :=
  if b.errors.length = 0 then none else some b

/-- `New()` (`errbuf.go` lines 172-174): empty buffer, nil slice. -/
def New : BufState :=
  { errors := [], cap := 0 }

/-- `NewFromError(err)` (`errbuf.go` lines 177-179):
`&BufferedError{errors: []error{err}}` — the argument is stored
unconditionally, nil or not; the slice literal has length and
capacity 1. -/
def NewFromError (err : GoError) : BufState :=
  { errors := [err], cap := 1 }

/-- Deprecated `NewErrorsBuffer()` (`errbuf.go` lines 160-162):
forwards to `New`. -/
def NewErrorsBuffer : BufState :=
  New

/-- Deprecated `NewBufferFromError(err)` (`errbuf.go` lines 167-169):
forwards to `NewFromError`. -/
def NewBufferFromError (err : GoError) : BufState :=
  NewFromError err

/-- `NewBufferFromWarning(err)` (`errbuf.go` lines 184-186): the body is
a single `panic` with the message below; a panic is an `Except.error`
carrying the message, so no buffer value is ever returned. -/
def NewBufferFromWarning (_err : GoError) : Except String BufState :=
  .error "BufferedError does not contain warnings buffer"

/-- One public mutating call on a buffer. -/
inductive Op where
  | add (err : GoError) : Op
  | clear : Op
  | grow (n : Int) : Op

/-- Apply one public mutating call. -/
def applyOp (b : BufState) : Op → BufState
  | .add err => Add b err
  | .clear => Clear b
  | .grow n => Grow b n

/-- Run a sequence of public mutating calls, oldest first. -/
def run (b : BufState) (ops : List Op) : BufState :=
  ops.foldl applyOp b

/-- Run a sequence of `Add` calls, oldest first. -/
def runAdds (b : BufState) (es : List GoError) : BufState :=
  es.foldl Add b

mutual

/-- Deep nil-freedom of one error value: no nil interface value occurs
in it, at any nesting depth of `buffered` entries. -/
def GoError.nilFree : GoError → Bool
  | .nilErr => false
  | .leaf _ => true
  | .buffered errs => nilFreeList errs

/-- Deep nil-freedom of a slice of error values. -/
def nilFreeList : List GoError → Bool
  | [] => true
  | e :: rest => e.nilFree && nilFreeList rest

end

/-- Whether the argument of an `add` operation is deeply nil-free
(`clear` and `grow` take no error argument). -/
def Op.nilFreeArg : Op → Bool
  | .add err => err.nilFree
  | .clear => true
  | .grow _ => true

/-! ## Store model for the defensive copy of `Unwrap`

Go slices are views of heap-allocated backing arrays.  `Mem` is the
heap: a list of backing arrays, addressed by position.  The buffer
keeps its `errors` contents at one address; `Unwrap` (lines 105-110:
`append(([]error)(nil), b.errors...)`) allocates a fresh backing array,
copies the current contents into it, and returns its address — so
writes through one address never reach the other. -/

/-- The heap of slice backing arrays. -/
structure Mem where
  arrays : List (List GoError)

/-- Contents stored at address `a`. -/
def Mem.read (m : Mem) (a : Nat) : List GoError :=
  m.arrays.getD a []

/-- Overwrite the contents at address `a`. -/
def Mem.write (m : Mem) (a : Nat) (v : List GoError) : Mem :=
  ⟨m.arrays.set a v⟩

/-- Allocate a fresh address holding `v`; returns the new heap and the
fresh address. -/
def Mem.alloc (m : Mem) (v : List GoError) : Mem × Nat :=
  (⟨m.arrays ++ [v]⟩, m.arrays.length)

/-- `Add` acting on the heap: the buffer stores its `errors` at address
`a`; a nil argument is an early return, any other is appended. -/
def heapAdd (m : Mem) (a : Nat) (err : GoError) : Mem :=
  if err.isNil then m else m.write a (m.read a ++ [err])

/-- `Clear` acting on the heap: the contents at the buffer address are
reset to the nil slice. -/
def heapClear (m : Mem) (a : Nat) : Mem :=
  m.write a []

/-- `Unwrap` (`errbuf.go` lines 105-110) acting on the heap:
`append(([]error)(nil), b.errors...)` allocates a fresh backing array
and copies the current contents into it; the caller receives the fresh
address. -/
def heapUnwrap (m : Mem) (a : Nat) : Mem × Nat :=
  m.alloc (m.read a)

/-- Run a sequence of `Add` calls on the heap, oldest first. -/
def heapRunAdds (m : Mem) (a : Nat) (es : List GoError) : Mem :=
  es.foldl (fun m e => heapAdd m a e) m

/-- The `Error()` strings of all entries of a slice: `some` of the list
of strings when no entry panics, `none` otherwise.  Used to state the
rendering claims. -/
def strsOf : List GoError → Option (List String)
  | [] => some []
  | e :: rest => do
      let s ← errString e
      let ss ← strsOf rest
      some (s :: ss)

/-- Join a list of strings with a separator between consecutive
elements:  `joinSep sep [s1, ..., sn] = s1 ++ sep ++ ... ++ sep ++ sn`.
Used to state the rendering claims. -/
def joinSep (sep : String) : List String → String
  | [] => ""
  | [s] => s
  | s :: s2 :: rest => s ++ sep ++ joinSep sep (s2 :: rest)

/-! ## Lemmas -/

theorem joinSep_cons (sep s : String) (ss : List String) (h : ss ≠ []) :
    joinSep sep (s :: ss) = s ++ sep ++ joinSep sep ss := by
  cases ss with
  | nil => exact absurd rfl h
  | cons s2 rest => rfl

theorem strsOf_ne_nil (e : GoError) (rest : List GoError) (ss : List String)
    (h : strsOf (e :: rest) = some ss) : ss ≠ [] := by
  unfold strsOf at h
  cases he : errString e with
  | none => rw [he] at h; simp at h
  | some s =>
    rw [he] at h
    cases hr : strsOf rest with
    | none => rw [hr] at h; simp at h
    | some ss2 =>
      rw [hr] at h
      simp at h
      rw [← h]
      simp

theorem strsOf_cons (e : GoError) (rest : List GoError) :
    strsOf (e :: rest)
      = (errString e).bind fun s => (strsOf rest).bind fun ss => some (s :: ss) :=
  rfl

theorem writeSingleLine_eq_strsOf (errs : List GoError) :
    writeSingleLine errs = (strsOf errs).map (joinSep "; ") := by
  induction errs with
  | nil => rfl
  | cons e rest ih =>
    cases rest with
    | nil =>
      cases he : errString e <;>
        simp [writeSingleLine, strsOf, joinSep, he]
    | cons e2 rest2 =>
      rw [show writeSingleLine (e :: e2 :: rest2)
            = (errString e).bind (fun s => (writeSingleLine (e2 :: rest2)).bind
                (fun t => some (s ++ "; " ++ t))) from rfl,
          strsOf_cons e (e2 :: rest2), ih]
      cases he : errString e with
      | none => rfl
      | some s =>
        cases hr : strsOf (e2 :: rest2) with
        | none => rfl
        | some ss =>
          have hne : ss ≠ [] := strsOf_ne_nil e2 rest2 ss hr
          simp [joinSep_cons "; " s ss hne]

theorem writeSingleLine_eq_ErrorMethod (errs : List GoError) :
    writeSingleLine errs = ErrorMethod errs := by
  match errs with
  | [] => rfl
  | [e] => rfl
  | e :: e2 :: rest => rfl

theorem ErrorMethod_eq_strsOf (errs : List GoError) :
    ErrorMethod errs = (strsOf errs).map (joinSep "; ") := by
  rw [← writeSingleLine_eq_ErrorMethod]
  exact writeSingleLine_eq_strsOf errs

/-! ## Claim theorems -/

/-- C3: single-line rendering of a buffer holding errors `e1 ... eN` in
insertion order is the empty string for `N = 0`, exactly the own string
of the single error for `N = 1`, and the `"; "`-joined concatenation of
the entry strings for `N ≥ 2`; in particular adding `"a"`, `"b"`, `"c"`
to an empty buffer renders as `"a; b; c"`. -/
theorem single_line_rendering :
    ErrorMethod [] = some ""
    ∧ (∀ (e : GoError) (s : String), errString e = some s → ErrorMethod [e] = some s)
    ∧ (∀ (errs : List GoError) (ss : List String), 2 ≤ errs.length →
        strsOf errs = some ss → ErrorMethod errs = some (joinSep "; " ss))
    ∧ ErrorM (run New [.add (.leaf "a"), .add (.leaf "b"), .add (.leaf "c")])
        = some "a; b; c" := by
  refine ⟨rfl, ?_, ?_, by rfl⟩
  · intro e s h
    simp [ErrorMethod, h]
  · intro errs ss _ h
    rw [ErrorMethod_eq_strsOf, h]
    rfl

/-- C3 witness: the general clauses applied at concrete inputs. -/
theorem single_line_rendering_witness :
    ErrorMethod [GoError.leaf "x"] = some "x"
    ∧ ErrorMethod [GoError.leaf "a", GoError.leaf "b"]
        = some (joinSep "; " ["a", "b"]) :=
  ⟨single_line_rendering.2.1 (GoError.leaf "x") "x" rfl,
   single_line_rendering.2.2.1 [GoError.leaf "a", GoError.leaf "b"] ["a", "b"]
     (by decide) rfl⟩

/-- C4: `Err()` returns nil exactly when the errors sequence is empty,
and otherwise the buffer itself; `Err` reads but never mutates the
state (it is a pure function of the state here, so repeated calls on
unchanged state agree definitionally), and `Clear` followed by `Err`
returns nil for any prior content. -/
theorem err_nil_iff_empty :
    (∀ b : BufState, Err b = none ↔ b.errors = [])
    ∧ (∀ b : BufState, b.errors ≠ [] → Err b = some b)
    ∧ (∀ b : BufState, Err (Clear b) = none) := by
  refine ⟨?_, ?_, ?_⟩
  · intro b
    unfold Err
    constructor
    · intro h
      by_cases he : b.errors.length = 0
      · exact List.length_eq_zero.mp he
      · simp [he] at h
    · intro h
      simp [h]
  · intro b h
    have : b.errors.length ≠ 0 := by
      intro hc
      exact h (List.length_eq_zero.mp hc)
    simp [Err, this]
  · intro b
    rfl

/-- C4 witness: the clauses applied at a concrete one-error buffer. -/
theorem err_nil_iff_empty_witness :
    Err (NewFromError (GoError.leaf "x")) = some (NewFromError (GoError.leaf "x"))
    ∧ Err (Clear (NewFromError (GoError.leaf "x"))) = none :=
  ⟨err_nil_iff_empty.2.1 (NewFromError (GoError.leaf "x")) (by simp [NewFromError]),
   err_nil_iff_empty.2.2 (NewFromError (GoError.leaf "x"))⟩

/-- C7: `Add(nil)` is the identity on the buffer state (no append, no
content, order or count change, no panic), and `Add(err)` for non-nil
`err` appends `err` at the end, growing the stored count by exactly
one and keeping every previously stored entry in place. -/
theorem add_nil_noop_and_append :
    (∀ b : BufState, Add b .nilErr = b)
    ∧ (∀ (b : BufState) (e : GoError), e.isNil = false →
        (Add b e).errors = b.errors ++ [e]
        ∧ (Add b e).errors.length = b.errors.length + 1) := by
  refine ⟨fun b => rfl, ?_⟩
  intro b e h
  have : (Add b e).errors = b.errors ++ [e] := by
    simp [Add, h]
  exact ⟨this, by simp [this]⟩

/-- C7 witness: the non-nil clause applied at a concrete input. -/
theorem add_nil_noop_and_append_witness :
    (Add New (GoError.leaf "x")).errors = New.errors ++ [GoError.leaf "x"] :=
  (add_nil_noop_and_append.2 New (GoError.leaf "x") rfl).1

theorem runAdds_errors (es : List GoError) (b : BufState) :
    (runAdds b es).errors = b.errors ++ es.filter (fun e => !e.isNil) := by
  induction es generalizing b with
  | nil => simp [runAdds]
  | cons e rest ih =>
    have hstep : runAdds b (e :: rest) = runAdds (Add b e) rest := rfl
    rw [hstep, ih (Add b e)]
    cases hn : e.isNil with
    | true =>
      have : Add b e = b := by unfold Add; rw [if_pos hn]
      simp [this, List.filter_cons, hn]
    | false =>
      have : (Add b e).errors = b.errors ++ [e] := by
        unfold Add; rw [if_neg (by simp [hn])]
      simp [this, List.filter_cons, hn]

theorem grow_errors (b : BufState) (n : Int) : (Grow b n).errors = b.errors := by
  unfold Grow; split <;> rfl

/-- C8: `Grow(n)` never changes the stored errors, ensures the capacity
is at least `n` afterwards, is the identity when the capacity is
already at least `n`, and any later sequence of `Add` calls keeps every
previously stored error in place, in order, without duplication (the
resulting contents are the old contents followed by exactly the non-nil
added errors). -/
theorem grow_preserves_contents :
    (∀ (b : BufState) (n : Int), (Grow b n).errors = b.errors)
    ∧ (∀ (b : BufState) (n : Int), n ≤ ((Grow b n).cap : Int))
    ∧ (∀ (b : BufState) (n : Int), n ≤ (b.cap : Int) → Grow b n = b)
    ∧ (∀ (b : BufState) (n : Int) (es : List GoError),
        (runAdds (Grow b n) es).errors
          = b.errors ++ es.filter (fun e => !e.isNil)) := by
  refine ⟨grow_errors, ?_, ?_, ?_⟩
  · intro b n
    unfold Grow
    split
    · rename_i h
      simp only
      omega
    · rename_i h
      omega
  · intro b n h
    unfold Grow
    rw [if_neg (by omega)]
  · intro b n es
    rw [runAdds_errors, grow_errors]

/-- C8 witness: the identity clause applied at a concrete state. -/
theorem grow_preserves_contents_witness :
    Grow New 0 = New :=
  grow_preserves_contents.2.2.1 New 0 (by decide)

theorem applyOp_keeps_non_nil (b : BufState) (op : Op)
    (h : b.errors.all (fun e => !e.isNil) = true) :
    (applyOp b op).errors.all (fun e => !e.isNil) = true := by
  cases op with
  | add err =>
    by_cases hn : err.isNil
    · have : applyOp b (.add err) = b := by
        show Add b err = b
        unfold Add; rw [if_pos hn]
      rw [this]; exact h
    · have : (applyOp b (.add err)).errors = b.errors ++ [err] := by
        show (Add b err).errors = _
        unfold Add; rw [if_neg hn]
      rw [this]
      simp only [List.all_append, h, Bool.true_and, List.all_cons, List.all_nil,
        Bool.and_true]
      simp [hn]
  | clear => rfl
  | grow n =>
    have : (applyOp b (.grow n)).errors = b.errors := grow_errors b n
    rw [this]; exact h

theorem run_keeps_non_nil (init : BufState) (ops : List Op)
    (h : init.errors.all (fun e => !e.isNil) = true) :
    (run init ops).errors.all (fun e => !e.isNil) = true := by
  induction ops generalizing init with
  | nil => exact h
  | cons op rest ih => exact ih (applyOp init op) (applyOp_keeps_non_nil init op h)

/-- C1 (amended): `Add` never stores a nil error, so any buffer whose
entries are all non-nil (in particular one built by `New`, or by
`NewFromError` with a non-nil argument) keeps all entries non-nil under
every sequence of public `Add`/`Clear`/`Grow` calls; but `NewFromError`
(and the deprecated `NewBufferFromError`) store their argument
unconditionally, so `NewFromError(nil)` yields a one-entry buffer whose
entry is the nil error, not an empty buffer. -/
theorem add_never_stores_nil :
    (∀ (init : BufState) (ops : List Op),
        init.errors.all (fun e => !e.isNil) = true →
        (run init ops).errors.all (fun e => !e.isNil) = true)
    ∧ (∀ ops : List Op, (run New ops).errors.all (fun e => !e.isNil) = true)
    ∧ (∀ (e0 : GoError), e0.isNil = false → ∀ ops : List Op,
        (run (NewFromError e0) ops).errors.all (fun e => !e.isNil) = true)
    ∧ (NewFromError GoError.nilErr).errors = [GoError.nilErr] := by
  refine ⟨run_keeps_non_nil, ?_, ?_, rfl⟩
  · intro ops
    exact run_keeps_non_nil New ops rfl
  · intro e0 h0 ops
    exact run_keeps_non_nil (NewFromError e0) ops (by simp [NewFromError, h0])

/-- C1 counterexample: the claim says `NewFromError(nil)` yields an
empty buffer with no nil entry ever stored; in fact it yields a
one-entry buffer storing the nil error (likewise through the deprecated
`NewBufferFromError`). -/
theorem newFromError_nil_stores_nil :
    (NewFromError GoError.nilErr).errors ≠ []
    ∧ GoError.nilErr ∈ (NewFromError GoError.nilErr).errors
    ∧ (NewBufferFromError GoError.nilErr).errors = [GoError.nilErr] := by
  refine ⟨?_, ?_, rfl⟩
  · intro h
    simp [NewFromError] at h
  · simp [NewFromError]

/-- C1 witness: the invariant clause applied at a concrete initial
buffer and operation sequence. -/
theorem add_never_stores_nil_witness :
    (run (NewFromError (GoError.leaf "x"))
        [.add (.leaf "y"), .add .nilErr, .grow 5, .add (.leaf "z")]).errors.all
      (fun e => !e.isNil) = true :=
  add_never_stores_nil.1 (NewFromError (GoError.leaf "x"))
    [.add (.leaf "y"), .add .nilErr, .grow 5, .add (.leaf "z")] rfl

/-- C10: for every verb other than `v` (the `default` branch of
`Format`), the string written is exactly the `Error()` string: the
empty string for zero entries, the sole entry string for one, and the
`"; "`-join in insertion order in general. -/
theorem format_default_eq_error_string :
    ∀ (verb : Char) (plusFlag : Bool), verb ≠ 'v' →
      (∀ errs : List GoError, FormatVerb errs verb plusFlag = ErrorMethod errs)
      ∧ (∀ (errs : List GoError) (ss : List String), strsOf errs = some ss →
          FormatVerb errs verb plusFlag = some (joinSep "; " ss)) := by
  intro verb plusFlag h
  have h1 : ∀ errs : List GoError, FormatVerb errs verb plusFlag = ErrorMethod errs := by
    intro errs
    unfold FormatVerb
    rw [if_neg h]
    exact writeSingleLine_eq_ErrorMethod errs
  refine ⟨h1, ?_⟩
  intro errs ss hs
  rw [h1, ErrorMethod_eq_strsOf, hs]
  rfl

/-- C10 witness: the equality applied at verb `s` on a two-entry
buffer. -/
theorem format_default_eq_error_string_witness :
    FormatVerb [GoError.leaf "a", GoError.leaf "b"] 's' false
      = ErrorMethod [GoError.leaf "a", GoError.leaf "b"] :=
  (format_default_eq_error_string 's' false (by decide)).1
    [GoError.leaf "a", GoError.leaf "b"]

mutual

theorem errString_isSome : ∀ (e : GoError), e.nilFree = true →
    (errString e).isSome = true
  | .nilErr, h => by simp [GoError.nilFree] at h
  | .leaf _, _ => rfl
  | .buffered [], _ => rfl
  | .buffered [e], h => by
      have h1 : e.nilFree = true := by
        simp [GoError.nilFree, nilFreeList] at h
        exact h
      have := errString_isSome e h1
      simpa [errString] using this
  | .buffered (e :: e2 :: rest), h => by
      have h1 : e.nilFree = true := by
        simp [GoError.nilFree, nilFreeList] at h
        exact h.1
      have h2 : nilFreeList (e2 :: rest) = true := by
        simp [GoError.nilFree, nilFreeList] at h ⊢
        exact ⟨h.2.1, h.2.2⟩
      have H1 := errString_isSome e h1
      have H2 := writeSingleLine_isSome (e2 :: rest) h2
      obtain ⟨s, hs⟩ := Option.isSome_iff_exists.mp H1
      obtain ⟨t, ht⟩ := Option.isSome_iff_exists.mp H2
      simp [errString, hs, ht]

theorem writeSingleLine_isSome : ∀ (l : List GoError), nilFreeList l = true →
    (writeSingleLine l).isSome = true
  | [], _ => rfl
  | [e], h => by
      have h1 : e.nilFree = true := by
        simp [nilFreeList] at h
        exact h
      have := errString_isSome e h1
      simpa [writeSingleLine] using this
  | e :: e2 :: rest, h => by
      have h1 : e.nilFree = true := by
        simp [nilFreeList] at h
        exact h.1
      have h2 : nilFreeList (e2 :: rest) = true := by
        simp [nilFreeList] at h ⊢
        exact ⟨h.2.1, h.2.2⟩
      have H1 := errString_isSome e h1
      have H2 := writeSingleLine_isSome (e2 :: rest) h2
      obtain ⟨s, hs⟩ := Option.isSome_iff_exists.mp H1
      obtain ⟨t, ht⟩ := Option.isSome_iff_exists.mp H2
      simp [writeSingleLine, hs, ht]

end

mutual

theorem writeMultiLine_isSome : ∀ (ident : Nat) (l : List GoError),
    nilFreeList l = true → (writeMultiLine ident l).isSome = true
  | _, [], _ => rfl
  | ident, [e], h => by
      have h1 : e.nilFree = true := by
        simp [nilFreeList] at h
        exact h
      have := mlEntry_isSome ident e h1
      simpa [writeMultiLine] using this
  | ident, e :: e2 :: rest, h => by
      have h1 : e.nilFree = true := by
        simp [nilFreeList] at h
        exact h.1
      have h2 : nilFreeList (e2 :: rest) = true := by
        simp [nilFreeList] at h ⊢
        exact ⟨h.2.1, h.2.2⟩
      have H1 := mlEntry_isSome ident e h1
      have H2 := writeMultiLine_isSome ident (e2 :: rest) h2
      obtain ⟨s, hs⟩ := Option.isSome_iff_exists.mp H1
      obtain ⟨t, ht⟩ := Option.isSome_iff_exists.mp H2
      simp [writeMultiLine, hs, ht]

theorem mlEntry_isSome : ∀ (ident : Nat) (e : GoError), e.nilFree = true →
    (mlEntry ident e).isSome = true
  | _, .nilErr, h => by simp [GoError.nilFree] at h
  | _, .leaf _, _ => rfl
  | ident, .buffered errs, h => by
      have h1 : nilFreeList errs = true := by
        simpa [GoError.nilFree] using h
      have := writeMultiLine_isSome (ident + 1) errs h1
      simpa [mlEntry] using this

end

theorem nilFreeList_append (l1 l2 : List GoError) :
    nilFreeList (l1 ++ l2) = (nilFreeList l1 && nilFreeList l2) := by
  induction l1 with
  | nil => simp [nilFreeList]
  | cons e rest ih => simp [nilFreeList, ih, Bool.and_assoc]

theorem applyOp_keeps_nilFree (b : BufState) (op : Op)
    (hb : nilFreeList b.errors = true) (hop : op.nilFreeArg = true) :
    nilFreeList (applyOp b op).errors = true := by
  cases op with
  | add err =>
    by_cases hn : err.isNil
    · have : applyOp b (.add err) = b := by
        show Add b err = b
        unfold Add; rw [if_pos hn]
      rw [this]; exact hb
    · have : (applyOp b (.add err)).errors = b.errors ++ [err] := by
        show (Add b err).errors = _
        unfold Add; rw [if_neg hn]
      rw [this, nilFreeList_append, hb]
      have : err.nilFree = true := hop
      simp [nilFreeList, this]
  | clear => rfl
  | grow n =>
    have : (applyOp b (.grow n)).errors = b.errors := grow_errors b n
    rw [this]; exact hb

theorem run_keeps_nilFree (init : BufState) (ops : List Op)
    (hb : nilFreeList init.errors = true) (hops : ops.all Op.nilFreeArg = true) :
    nilFreeList (run init ops).errors = true := by
  induction ops generalizing init with
  | nil => exact hb
  | cons op rest ih =>
    have hop : op.nilFreeArg = true := by
      rw [List.all_cons] at hops
      exact (Bool.and_eq_true_iff.mp hops).1
    have hrest : rest.all Op.nilFreeArg = true := by
      rw [List.all_cons] at hops
      exact (Bool.and_eq_true_iff.mp hops).2
    exact ih (applyOp init op) (applyOp_keeps_nilFree init op hb hop) hrest

theorem ErrorMethod_isSome (errs : List GoError) (h : nilFreeList errs = true) :
    (ErrorMethod errs).isSome = true := by
  rw [← writeSingleLine_eq_ErrorMethod]
  exact writeSingleLine_isSome errs h

theorem FormatVerb_isSome (errs : List GoError) (verb : Char) (plusFlag : Bool)
    (h : nilFreeList errs = true) : (FormatVerb errs verb plusFlag).isSome = true := by
  unfold FormatVerb
  by_cases hv : verb = 'v'
  · rw [if_pos hv]
    cases plusFlag with
    | true => rfl
    | false =>
      simp only [Bool.false_eq_true, if_false]
      exact writeMultiLine_isSome 0 errs h
  · rw [if_neg hv]
    exact writeSingleLine_isSome errs h

/-- C2 (amended): every public operation except `NewBufferFromWarning`
is total — `Add` accepts nil, `Err` and rendering are safe on an empty
buffer — and rendering (`Error` and `Format`, for every verb and flag)
never panics on any buffer all of whose stored entries are recursively
free of nil error values; every buffer built from `New`, or from
`NewFromError` with a recursively nil-free argument, by `Add` calls
with recursively nil-free arguments plus any `Clear`/`Grow` calls, is
such a buffer.  However, `NewFromError(nil)` produces a buffer holding
a nil entry, on which rendering panics (see the counterexample). -/
theorem operations_total_and_rendering_safe :
    (∀ b : BufState, Add b GoError.nilErr = b)
    ∧ ErrorM New = some ""
    ∧ Err New = none
    ∧ (∀ (verb : Char) (plusFlag : Bool), (FormatVerb [] verb plusFlag).isSome = true)
    ∧ (∀ (init : BufState) (ops : List Op),
        nilFreeList init.errors = true →
        ops.all Op.nilFreeArg = true →
        (ErrorM (run init ops)).isSome = true
        ∧ (∀ (verb : Char) (plusFlag : Bool),
            (FormatVerb (run init ops).errors verb plusFlag).isSome = true)) := by
  refine ⟨fun b => rfl, rfl, rfl, ?_, ?_⟩
  · intro verb plusFlag
    exact FormatVerb_isSome [] verb plusFlag rfl
  · intro init ops hb hops
    have hfree := run_keeps_nilFree init ops hb hops
    exact ⟨ErrorMethod_isSome _ hfree, fun verb plusFlag => FormatVerb_isSome _ verb plusFlag hfree⟩

/-- C2 counterexample: the claim says rendering is safe for every
buffer produced through the public API, including `NewFromError(nil)`;
in fact `Error()` and `Format` with `%v` or `%s` all panic (nil-pointer
dereference on `err.Error()`) on the buffer `NewFromError(nil)`. -/
theorem rendering_panics_on_nil_entry :
    ErrorM (NewFromError GoError.nilErr) = none
    ∧ FormatVerb (NewFromError GoError.nilErr).errors 'v' false = none
    ∧ FormatVerb (NewFromError GoError.nilErr).errors 's' false = none := by
  refine ⟨rfl, ?_, ?_⟩ <;> simp [FormatVerb, NewFromError, writeMultiLine, mlEntry,
    writeSingleLine, errString]

/-- C2 witness: the reachable-safety clause applied at a concrete
initial buffer and operation sequence (including a nested buffer used
as an error value). -/
theorem operations_total_and_rendering_safe_witness :
    (ErrorM (run New [.add (.leaf "a"), .add (.buffered [.leaf "b"]), .grow 4])).isSome
      = true :=
  (operations_total_and_rendering_safe.2.2.2.2 New
    [.add (.leaf "a"), .add (.buffered [.leaf "b"]), .grow 4] rfl rfl).1

theorem writeMultiLine_leaves (ident : Nat) (msgs : List String) :
    writeMultiLine ident (msgs.map GoError.leaf)
      = some (joinSep "\n" (msgs.map (fun m => spaces ident ++ m))) := by
  induction msgs with
  | nil => rfl
  | cons m rest ih =>
    cases rest with
    | nil => rfl
    | cons m2 rest2 =>
      have hstep : writeMultiLine ident ((m :: m2 :: rest2).map GoError.leaf)
          = (mlEntry ident (GoError.leaf m)).bind fun s =>
              (writeMultiLine ident ((m2 :: rest2).map GoError.leaf)).bind fun t =>
                some (s ++ "\n" ++ t) := rfl
      have hne : (m2 :: rest2).map (fun m => spaces ident ++ m) ≠ [] := by simp
      have hrhs : joinSep "\n" ((m :: m2 :: rest2).map (fun m => spaces ident ++ m))
          = (spaces ident ++ m) ++ "\n"
            ++ joinSep "\n" ((m2 :: rest2).map (fun m => spaces ident ++ m)) := by
        rw [List.map_cons]
        exact joinSep_cons "\n" _ _ hne
      rw [hstep, ih, hrhs]
      rfl

/-- C5: `Format` with verb `v` and no `+` flag renders through
`writeMultiLine` at depth 0; multi-line rendering puts each leaf entry
on its own line prefixed by the indentation of the current depth; an
entry that is itself a `BufferedError` is rendered recursively at
depth + 1 rather than as an opaque leaf string; consequently, in a
buffer holding a leaf and a nested buffer, the entries of the nested
buffer carry exactly one indentation level more than the top-level
leaf (one blank versus none). -/
theorem multi_line_rendering :
    (∀ errs : List GoError, FormatVerb errs 'v' false = writeMultiLine 0 errs)
    ∧ (∀ (ident : Nat) (msgs : List String),
        writeMultiLine ident (msgs.map GoError.leaf)
          = some (joinSep "\n" (msgs.map (fun m => spaces ident ++ m))))
    ∧ (∀ (ident : Nat) (errs : List GoError),
        mlEntry ident (GoError.buffered errs) = writeMultiLine (ident + 1) errs)
    ∧ (∀ (s : String) (msgs : List String),
        writeMultiLine 0 [GoError.leaf s, GoError.buffered (msgs.map GoError.leaf)]
          = some (s ++ "\n" ++ joinSep "\n" (msgs.map (fun m => " " ++ m)))) := by
  refine ⟨?_, writeMultiLine_leaves, fun ident errs => rfl, ?_⟩
  · intro errs
    simp [FormatVerb]
  · intro s msgs
    have hstep : writeMultiLine 0 [GoError.leaf s, GoError.buffered (msgs.map GoError.leaf)]
        = (mlEntry 0 (GoError.leaf s)).bind fun x =>
            (writeMultiLine 1 (msgs.map GoError.leaf)).bind fun t =>
              some (x ++ "\n" ++ t) := rfl
    have hsp : (fun m => spaces 1 ++ m) = (fun m : String => " " ++ m) := by
      funext m
      rfl
    rw [hstep, writeMultiLine_leaves 1 msgs, hsp]
    rfl

theorem Mem.read_write_self (m : Mem) (a : Nat) (v : List GoError)
    (h : a < m.arrays.length) : (m.write a v).read a = v := by
  unfold Mem.read Mem.write
  simp [List.getD_eq_getElem?_getD, List.getElem?_set_eq_of_lt v h]

theorem Mem.read_write_ne (m : Mem) (a b : Nat) (v : List GoError)
    (h : a ≠ b) : (m.write a v).read b = m.read b := by
  unfold Mem.read Mem.write
  simp [List.getD_eq_getElem?_getD, List.getElem?_set_ne h]

theorem Mem.read_alloc_new (m : Mem) (v : List GoError) :
    (m.alloc v).1.read (m.alloc v).2 = v := by
  unfold Mem.read Mem.alloc
  simp [List.getD_eq_getElem?_getD, List.getElem?_concat_length]

theorem Mem.read_alloc_old (m : Mem) (v : List GoError) (a : Nat)
    (h : a < m.arrays.length) : (m.alloc v).1.read a = m.read a := by
  unfold Mem.read Mem.alloc
  simp [List.getD_eq_getElem?_getD, List.getElem?_append_left h]

theorem Mem.write_length (m : Mem) (a : Nat) (v : List GoError) :
    (m.write a v).arrays.length = m.arrays.length := by
  unfold Mem.write
  simp

theorem heapAdd_read_self (m : Mem) (a : Nat) (e : GoError)
    (h : a < m.arrays.length) :
    (heapAdd m a e).read a = m.read a ++ (if e.isNil then [] else [e]) := by
  unfold heapAdd
  by_cases hn : e.isNil
  · simp [hn]
  · simp only [hn, Bool.false_eq_true, if_false]
    exact Mem.read_write_self m a _ h

theorem heapAdd_read_ne (m : Mem) (a c : Nat) (e : GoError) (h : a ≠ c) :
    (heapAdd m a e).read c = m.read c := by
  unfold heapAdd
  by_cases hn : e.isNil
  · simp [hn]
  · simp only [hn, Bool.false_eq_true, if_false]
    exact Mem.read_write_ne m a c _ h

theorem heapAdd_length (m : Mem) (a : Nat) (e : GoError) :
    (heapAdd m a e).arrays.length = m.arrays.length := by
  unfold heapAdd
  by_cases hn : e.isNil
  · simp [hn]
  · simp only [hn, Bool.false_eq_true, if_false]
    exact Mem.write_length m a _

theorem heapRunAdds_read_self (es : List GoError) (m : Mem) (a : Nat)
    (h : a < m.arrays.length) :
    (heapRunAdds m a es).read a = m.read a ++ es.filter (fun e => !e.isNil) := by
  induction es generalizing m with
  | nil => simp [heapRunAdds]
  | cons e rest ih =>
    have hstep : heapRunAdds m a (e :: rest) = heapRunAdds (heapAdd m a e) a rest := rfl
    have hlen : a < (heapAdd m a e).arrays.length := by
      rw [heapAdd_length]; exact h
    rw [hstep, ih (heapAdd m a e) hlen, heapAdd_read_self m a e h]
    by_cases hn : e.isNil <;> simp [hn, List.filter_cons]

theorem heapRunAdds_read_ne (es : List GoError) (m : Mem) (a c : Nat) (h : a ≠ c) :
    (heapRunAdds m a es).read c = m.read c := by
  induction es generalizing m with
  | nil => rfl
  | cons e rest ih =>
    have hstep : heapRunAdds m a (e :: rest) = heapRunAdds (heapAdd m a e) a rest := rfl
    rw [hstep, ih (heapAdd m a e), heapAdd_read_ne m a c e h]

/-- C6: `Unwrap` returns a defensive copy with independent storage: in
the heap model, the returned address is fresh (distinct from the
buffer address), it holds exactly the current contents, the buffer is
unchanged; writing anything through the returned address never changes
the buffer contents (nor the contents a subsequent `Unwrap` copies),
and `Add`/`Clear` calls performed after `Unwrap` never alter the
already-returned copy; finally, on a buffer that starts empty, the copy
returned after a sequence of `Add` calls lists precisely the non-nil
added errors, in call order — its length is the number of non-nil
`Add` arguments. -/
theorem unwrap_defensive_copy :
    (∀ (m : Mem) (a : Nat), a < m.arrays.length →
      (heapUnwrap m a).2 ≠ a
      ∧ (heapUnwrap m a).1.read (heapUnwrap m a).2 = m.read a
      ∧ (heapUnwrap m a).1.read a = m.read a
      ∧ (∀ v, ((heapUnwrap m a).1.write (heapUnwrap m a).2 v).read a = m.read a)
      ∧ (∀ v,
          (heapUnwrap ((heapUnwrap m a).1.write (heapUnwrap m a).2 v) a).1.read
              (heapUnwrap ((heapUnwrap m a).1.write (heapUnwrap m a).2 v) a).2
            = m.read a)
      ∧ (∀ es : List GoError,
          (heapRunAdds (heapUnwrap m a).1 a es).read (heapUnwrap m a).2 = m.read a)
      ∧ (heapClear (heapUnwrap m a).1 a).read (heapUnwrap m a).2 = m.read a)
    ∧ (∀ (m0 : Mem) (a0 : Nat) (es : List GoError),
        a0 < m0.arrays.length → m0.read a0 = [] →
        (heapUnwrap (heapRunAdds m0 a0 es) a0).1.read
            (heapUnwrap (heapRunAdds m0 a0 es) a0).2
          = es.filter (fun e => !e.isNil)) := by
  constructor
  · intro m a h
    have hne : (heapUnwrap m a).2 ≠ a := by
      show m.arrays.length ≠ a
      omega
    have hcopy : (heapUnwrap m a).1.read (heapUnwrap m a).2 = m.read a :=
      Mem.read_alloc_new m (m.read a)
    have hold : (heapUnwrap m a).1.read a = m.read a :=
      Mem.read_alloc_old m (m.read a) a h
    have hmut : ∀ v, ((heapUnwrap m a).1.write (heapUnwrap m a).2 v).read a = m.read a := by
      intro v
      rw [Mem.read_write_ne _ _ _ _ hne]
      exact hold
    refine ⟨hne, hcopy, hold, hmut, ?_, ?_, ?_⟩
    · intro v
      rw [show (heapUnwrap ((heapUnwrap m a).1.write (heapUnwrap m a).2 v) a).1.read
              (heapUnwrap ((heapUnwrap m a).1.write (heapUnwrap m a).2 v) a).2
            = ((heapUnwrap m a).1.write (heapUnwrap m a).2 v).read a
          from Mem.read_alloc_new _ _]
      exact hmut v
    · intro es
      rw [heapRunAdds_read_ne es _ a _ (fun hc => hne hc.symm)]
      exact hcopy
    · rw [show (heapClear (heapUnwrap m a).1 a).read (heapUnwrap m a).2
            = (heapUnwrap m a).1.read (heapUnwrap m a).2
          from Mem.read_write_ne _ _ _ _ (fun hc => hne hc.symm)]
      exact hcopy
  · intro m0 a0 es h hempty
    rw [show (heapUnwrap (heapRunAdds m0 a0 es) a0).1.read
            (heapUnwrap (heapRunAdds m0 a0 es) a0).2
          = (heapRunAdds m0 a0 es).read a0
        from Mem.read_alloc_new _ _,
        heapRunAdds_read_self es m0 a0 h, hempty]
    rfl

/-- C6 witness: the copy and exact-contents clauses applied at concrete
heaps and a concrete `Add` sequence containing one nil argument. -/
theorem unwrap_defensive_copy_witness :
    (heapUnwrap (Mem.mk [[GoError.leaf "x"]]) 0).1.read
        (heapUnwrap (Mem.mk [[GoError.leaf "x"]]) 0).2
      = (Mem.mk [[GoError.leaf "x"]]).read 0
    ∧ (heapUnwrap (heapRunAdds (Mem.mk [[]]) 0
          [GoError.leaf "a", GoError.nilErr, GoError.leaf "b"]) 0).1.read
        (heapUnwrap (heapRunAdds (Mem.mk [[]]) 0
          [GoError.leaf "a", GoError.nilErr, GoError.leaf "b"]) 0).2
      = List.filter (fun e => !e.isNil)
          [GoError.leaf "a", GoError.nilErr, GoError.leaf "b"] :=
  ⟨((unwrap_defensive_copy.1 (Mem.mk [[GoError.leaf "x"]]) 0 (by decide)).2.1),
   unwrap_defensive_copy.2 (Mem.mk [[]]) 0
     [GoError.leaf "a", GoError.nilErr, GoError.leaf "b"] (by decide) rfl⟩

/-- C9: `NewBufferFromWarning` panics for every input error — it
produces the fixed panic message and never returns a buffer value. -/
theorem newBufferFromWarning_always_panics :
    ∀ e : GoError,
      NewBufferFromWarning e
        = Except.error "BufferedError does not contain warnings buffer"
      ∧ ∀ b : BufState, NewBufferFromWarning e ≠ Except.ok b := by
  intro e
  exact ⟨rfl, fun b h => by simp [NewBufferFromWarning] at h⟩

end Errbuf
